import Mathlib

/-!
Verification of the HDX Google DLP redactor (`src/custom/HDXGoogleDLPRedactor.ts`).

The TypeScript source is shallowly embedded below.  JavaScript object lookup
that can yield `undefined` is modelled with `Option`; JavaScript comparisons
involving `undefined` (which evaluate to `false` via `NaN`) are modelled by
explicit `Option` matches; a thrown `TypeError` is modelled with
`Except.error`.  Byte offsets arrive as numeric strings in the source and are
converted with `Number(...)` (`getFindingStart` / `getFindingEnd`); here they
are carried as already-parsed integers.
-/

namespace HDX

/-- The likelihood priority table `likelihoodPriority` from the source.  A
JavaScript object lookup returns `undefined` for a key that is not present,
so the embedding returns `Option Int`, with `none` playing `undefined`. -/
def likelihoodPriority (s : String) : Option Int :=
  if s = "EXCLUDE" then some (-1)
  else if s = "LIKELIHOOD_UNSPECIFIED" then some 0
  else if s = "VERY_UNLIKELY" then some 1
  else if s = "UNLIKELY" then some 2
  else if s = "POSSIBLE" then some 3
  else if s = "LIKELY" then some 4
  else if s = "VERY_LIKELY" then some 5
  else none

/-- The seven keys of the `likelihoodPriority` table. -/
def likelihoodNames : List String :=
  ["EXCLUDE", "LIKELIHOOD_UNSPECIFIED", "VERY_UNLIKELY", "UNLIKELY",
   "POSSIBLE", "LIKELY", "VERY_LIKELY"]

/-- One DLP finding (interface `Finding` in the source).  `byteStart` and
`byteEnd` are the parsed values of `location.byteRange.start` / `.end`. -/
structure Finding where
  likelihood : String
  quote : List Char
  infoTypeName : String
  byteStart : Int
  byteEnd : Int
deriving DecidableEq

/-- Source accessor `getFindingStart`. -/
def getFindingStart (f : Finding) : Int := f.byteStart

/-- Source accessor `getFindingEnd`. -/
def getFindingEnd (f : Finding) : Int := f.byteEnd

/-- The comparison `likelihoodPriority[a] > likelihoodPriority[b]` as JavaScript
evaluates it: if either lookup is `undefined` the comparison is `false`. -/
def likGT (a b : String) : Bool :=
  match likelihoodPriority a, likelihoodPriority b with
  | some x, some y => decide (y < x)
  | _, _ => false

/-- Ordering by ascending finding start, the comparator
`(a, b) => getFindingStart(a) - getFindingStart(b)` of the source. -/
def startLE (a b : Finding) : Prop := getFindingStart a ≤ getFindingStart b

instance : DecidableRel startLE := fun a b => Int.decLe _ _

instance : IsTotal Finding startLE := ⟨fun a b => Int.le_total _ _⟩

instance : IsTrans Finding startLE := ⟨fun _ _ _ => Int.le_trans⟩

/-- The in-place `findings.sort((a, b) => getFindingStart(a) - getFindingStart(b))`
of the source.  JavaScript `Array.prototype.sort` is stable, as is insertion
sort. -/
def sortByStart (findings : List Finding) : List Finding :=
  List.insertionSort startLE findings

/-- The sweep loop of `removeOverlappingFindings` (lines 80-94 of the source):
`last` is `resultFindings[resultFindings.length - 1]`, `acc` holds the earlier
entries of `resultFindings` in reverse order. -/
def sweepFindings (last : Finding) (acc : List Finding) :
    List Finding → List Finding
  | [] => (last :: acc).reverse
  | current :: rest =>
    if getFindingStart current < getFindingEnd last then
      -- when findings overlap, keep the one with the higher likelihood
      if likGT current.likelihood last.likelihood then
        sweepFindings current acc rest
      else
        sweepFindings last acc rest
    else
      -- no overlap
      sweepFindings current (last :: acc) rest

/-- `removeOverlappingFindings` from the source: early return on 0 or 1
findings, otherwise sort ascending by start and sweep. -/
def removeOverlappingFindings (findings : List Finding) : List Finding :=
  if findings.length ≤ 1 then findings
  else
    match sortByStart findings with
    | [] => []
    | f :: rest => sweepFindings f [] rest

/-- Two findings overlap: `a.start < b.end && b.start < a.end`. -/
def overlaps (a b : Finding) : Prop :=
  getFindingStart a < getFindingEnd b ∧ getFindingStart b < getFindingEnd a

instance : DecidableRel overlaps := fun a b =>
  inferInstanceAs (Decidable (_ ∧ _))

theorem overlaps_symm : ∀ {a b : Finding}, overlaps a b → overlaps b a :=
  fun h => ⟨h.2, h.1⟩

/-- Separation order on findings: the first ends no later than the second
starts.  Separated findings do not overlap. -/
def sepLE (a b : Finding) : Prop := getFindingEnd a ≤ getFindingStart b

theorem sepLE.not_overlaps {a b : Finding} (h : sepLE a b) : ¬ overlaps a b :=
  fun hov => absurd hov.2 (not_lt.mpr h)

/-- Invariant-carrying correctness of the sweep: if the already-kept prefix is
pairwise separated, the current last finding starts no later than every
remaining finding, and the remaining findings are sorted by start, then the
sweep's output is pairwise separated. -/
theorem sweepFindings_pairwise_sepLE :
    ∀ (rem : List Finding) (last : Finding) (acc : List Finding),
      (acc.reverse ++ [last]).Pairwise sepLE →
      (∀ c ∈ rem, getFindingStart last ≤ getFindingStart c) →
      rem.Pairwise startLE →
      (sweepFindings last acc rem).Pairwise sepLE
  | [], last, acc, hacc, _, _ => by
      simpa [sweepFindings] using hacc
  | current :: rest, last, acc, hacc, hrem, hsorted => by
    have hrest : ∀ c ∈ rest, getFindingStart current ≤ getFindingStart c := by
      intro c hc
      exact (List.pairwise_cons.mp hsorted).1 c hc
    have hsorted' : rest.Pairwise startLE := (List.pairwise_cons.mp hsorted).2
    have hlastcur : getFindingStart last ≤ getFindingStart current :=
      hrem current (List.mem_cons_self _ _)
    have hsep : ∀ a ∈ acc.reverse, sepLE a last := by
      intro a ha
      have := (List.pairwise_append.mp hacc).2.2 a ha last (List.mem_singleton_self _)
      exact this
    rw [sweepFindings]
    by_cases hov : getFindingStart current < getFindingEnd last
    · rw [if_pos hov]
      by_cases hgt : likGT current.likelihood last.likelihood
      · rw [if_pos hgt]
        apply sweepFindings_pairwise_sepLE rest current acc _ hrest hsorted'
        rw [List.pairwise_append]
        refine ⟨(List.pairwise_append.mp hacc).1, List.pairwise_singleton _ _, ?_⟩
        intro a ha b hb
        rw [List.mem_singleton] at hb
        subst hb
        exact le_trans (hsep a ha) hlastcur
      · rw [if_neg hgt]
        apply sweepFindings_pairwise_sepLE rest last acc hacc _ hsorted'
        intro c hc
        exact hrem c (List.mem_cons_of_mem _ hc)
    · rw [if_neg hov]
      apply sweepFindings_pairwise_sepLE rest current (last :: acc) _ hrest hsorted'
      rw [List.reverse_cons, List.append_assoc]
      rw [List.pairwise_append]
      refine ⟨(List.pairwise_append.mp hacc).1, ?_, ?_⟩
      · -- the two-element suffix [last, current]
        have hlc : sepLE last current := not_lt.mp hov
        simp [List.pairwise_cons, hlc]
      · intro a ha b hb
        simp only [List.cons_append, List.nil_append, List.mem_cons,
          List.mem_singleton] at hb
        rcases hb with hb | hb
        · subst hb; exact hsep a ha
        · rcases hb with hb | hb
          · subst hb; exact le_trans (hsep a ha) hlastcur
          · exact absurd hb (List.not_mem_nil b)

/-- Claim C1: the output of `removeOverlappingFindings` is pairwise
non-overlapping: no two output findings `a`, `b` satisfy
`a.start < b.end ∧ b.start < a.end`. -/
theorem removeOverlappingFindings_pairwise_non_overlapping
    (findings : List Finding) :
    (removeOverlappingFindings findings).Pairwise
      (fun a b => ¬ overlaps a b) := by
  rw [removeOverlappingFindings]
  by_cases hlen : findings.length ≤ 1
  · rw [if_pos hlen]
    match findings, hlen with
    | [], _ => exact List.Pairwise.nil
    | [a], _ => exact List.pairwise_singleton _ _
  · rw [if_neg hlen]
    have hsorted : (sortByStart findings).Pairwise startLE :=
      List.sorted_insertionSort startLE findings
    match heq : sortByStart findings with
    | [] => exact List.Pairwise.nil
    | f :: rest =>
      rw [heq] at hsorted
      have hsep : (sweepFindings f [] rest).Pairwise sepLE := by
        apply sweepFindings_pairwise_sepLE rest f []
        · simpa using List.pairwise_singleton sepLE f
        · intro c hc
          exact (List.pairwise_cons.mp hsorted).1 c hc
        · exact (List.pairwise_cons.mp hsorted).2
      exact hsep.imp (fun h => sepLE.not_overlaps h)

/-! ### Cluster analysis of the overlap sweep (claim C2) -/

/-- The survivor the sweep keeps for a run of findings that all overlap the
running representative: fold keeping the strictly-higher-likelihood finding,
so an earlier finding is retained on ties. -/
def clusterWinner (first : Finding) (rest : List Finding) : Finding :=
  rest.foldl
    (fun rep c => if likGT c.likelihood rep.likelihood then c else rep) first

theorem likGT_irrefl (a : String) : likGT a a = false := by
  cases h : likelihoodPriority a <;> simp [likGT, h]

theorem likGT_trans {a b c : String} (h1 : likGT a b = true)
    (h2 : likGT b c = true) : likGT a c = true := by
  cases ha : likelihoodPriority a <;> cases hb : likelihoodPriority b <;>
    cases hc : likelihoodPriority c <;> simp_all [likGT] <;> omega

theorem likGT_asymm {a b : String} (h : likGT a b = true) :
    likGT b a = false := by
  by_contra hc
  rw [Bool.not_eq_false] at hc
  have := likGT_trans h hc
  rw [likGT_irrefl] at this
  exact Bool.false_ne_true this

/-- The winner either is the seed or strictly outranks it. -/
def likDominates (a b : Finding) : Prop :=
  a = b ∨ likGT a.likelihood b.likelihood = true

theorem likDominates_trans {a b c : Finding} (h1 : likDominates a b)
    (h2 : likDominates b c) : likDominates a c := by
  rcases h1 with rfl | h1
  · exact h2
  · rcases h2 with rfl | h2
    · exact Or.inr h1
    · exact Or.inr (likGT_trans h1 h2)

theorem clusterWinner_dominates :
    ∀ (rest : List Finding) (first : Finding),
      likDominates (clusterWinner first rest) first
  | [], _ => Or.inl rfl
  | c :: t, first => by
    have hstep :
        likDominates
          (if likGT c.likelihood first.likelihood then c else first) first := by
      by_cases hgt : likGT c.likelihood first.likelihood
      · rw [if_pos hgt]; exact Or.inr hgt
      · rw [if_neg hgt]; exact Or.inl rfl
    have hrec :=
      clusterWinner_dominates t
        (if likGT c.likelihood first.likelihood then c else first)
    have hunfold : clusterWinner first (c :: t) =
        clusterWinner
          (if likGT c.likelihood first.likelihood then c else first) t := by
      simp [clusterWinner]
    rw [hunfold]
    exact likDominates_trans hrec hstep

theorem not_beaten_of_dominates {g w rep : Finding}
    (hd : likDominates w rep)
    (hg : likGT g.likelihood rep.likelihood = false) :
    likGT g.likelihood w.likelihood = false := by
  rcases hd with rfl | hd
  · exact hg
  · by_contra hc
    rw [Bool.not_eq_false] at hc
    rw [likGT_trans hc hd] at hg
    exact absurd hg (by simp)

theorem likGT_step_false (g c first : Finding) (hg : g = first ∨ g = c) :
    likGT g.likelihood
      (if likGT c.likelihood first.likelihood then c else first).likelihood
        = false := by
  by_cases hgt : likGT c.likelihood first.likelihood
  · rw [if_pos hgt]
    rcases hg with rfl | rfl
    · exact likGT_asymm hgt
    · exact likGT_irrefl _
  · rw [if_neg hgt]
    rcases hg with rfl | rfl
    · exact likGT_irrefl _
    · simpa using hgt

theorem clusterWinner_not_beaten :
    ∀ (rest : List Finding) (first : Finding),
      ∀ g ∈ first :: rest,
        likGT g.likelihood (clusterWinner first rest).likelihood = false
  | [], first => by
    intro g hg
    rw [List.mem_singleton] at hg
    subst hg
    exact likGT_irrefl _
  | c :: t, first => by
    intro g hg
    have hunfold : clusterWinner first (c :: t) =
        clusterWinner
          (if likGT c.likelihood first.likelihood then c else first) t := by
      simp [clusterWinner]
    rw [hunfold]
    rcases List.mem_cons.mp hg with h1 | hg'
    · exact not_beaten_of_dominates (clusterWinner_dominates t _)
        (likGT_step_false g c first (Or.inl h1))
    · rcases List.mem_cons.mp hg' with h2 | hg''
      · exact not_beaten_of_dominates (clusterWinner_dominates t _)
          (likGT_step_false g c first (Or.inr h2))
      · exact clusterWinner_not_beaten t _ g (List.mem_cons_of_mem _ hg'')

theorem clusterWinner_mem :
    ∀ (rest : List Finding) (first : Finding),
      clusterWinner first rest ∈ first :: rest
  | [], first => List.mem_singleton_self first
  | c :: t, first => by
    have hunfold : clusterWinner first (c :: t) =
        clusterWinner
          (if likGT c.likelihood first.likelihood then c else first) t := by
      simp [clusterWinner]
    rw [hunfold]
    have hrec :=
      clusterWinner_mem t (if likGT c.likelihood first.likelihood then c else first)
    rcases List.mem_cons.mp hrec with heq | hmem
    · rw [heq]
      by_cases hgt : likGT c.likelihood first.likelihood
      · rw [if_pos hgt]; exact List.mem_cons_of_mem _ (List.mem_cons_self _ _)
      · rw [if_neg hgt]; exact List.mem_cons_self _ _
    · exact List.mem_cons_of_mem _ (List.mem_cons_of_mem _ hmem)

/-- On a run of findings that pairwise overlap, the sweep keeps exactly the
fold winner. -/
theorem sweepFindings_cluster :
    ∀ (rem : List Finding) (last : Finding) (acc : List Finding),
      (last :: rem).Pairwise overlaps →
      sweepFindings last acc rem = (clusterWinner last rem :: acc).reverse
  | [], last, acc, _ => by simp [sweepFindings, clusterWinner]
  | c :: rest, last, acc, h => by
    have hov : overlaps last c :=
      (List.pairwise_cons.mp h).1 c (List.mem_cons_self _ _)
    rw [sweepFindings, if_pos hov.2]
    by_cases hgt : likGT c.likelihood last.likelihood
    · rw [if_pos hgt]
      have h' : (c :: rest).Pairwise overlaps := (List.pairwise_cons.mp h).2
      rw [sweepFindings_cluster rest c acc h']
      have : clusterWinner last (c :: rest) = clusterWinner c rest := by
        simp [clusterWinner, hgt]
      rw [this]
    · rw [if_neg hgt]
      have hsub : (last :: rest).Sublist (last :: c :: rest) :=
        List.Sublist.cons₂ last (List.sublist_cons_self c rest)
      have h' : (last :: rest).Pairwise overlaps := h.sublist hsub
      rw [sweepFindings_cluster rest last acc h']
      have : clusterWinner last (c :: rest) = clusterWinner last rest := by
        simp [clusterWinner, hgt]
      rw [this]

/-- Counterexample findings for claim C2: the maximal mutually-overlapping
cluster consisting of `cxA` and `cxC` loses both of its members, because the
outsiders `cxD` and `cxE` (which overlap only one cluster member each) defeat
them in the sweep. -/
def cxA : Finding :=
  { likelihood := "POSSIBLE", quote := [], infoTypeName := "A",
    byteStart := 0, byteEnd := 5 }

def cxD : Finding :=
  { likelihood := "VERY_LIKELY", quote := [], infoTypeName := "D",
    byteStart := 1, byteEnd := 1 }

def cxC : Finding :=
  { likelihood := "LIKELY", quote := [], infoTypeName := "C",
    byteStart := 4, byteEnd := 10 }

def cxE : Finding :=
  { likelihood := "VERY_LIKELY", quote := [], infoTypeName := "E",
    byteStart := 5, byteEnd := 6 }

/-- Claim C2 is false: in the input `[cxA, cxD, cxC, cxE]` the set
`[cxA, cxC]` is a maximal cluster of mutually overlapping findings (every
input finding outside it fails to overlap some member), yet no member of the
cluster survives `removeOverlappingFindings` — so neither does a maximum-rank
member. -/
theorem removeOverlapping_cluster_counterexample :
    (∀ f ∈ [cxA, cxC], f ∈ [cxA, cxD, cxC, cxE]) ∧
    List.Pairwise overlaps [cxA, cxC] ∧
    (∀ f ∈ [cxA, cxD, cxC, cxE], f ∉ [cxA, cxC] →
      ∃ g ∈ [cxA, cxC], ¬ overlaps f g) ∧
    removeOverlappingFindings [cxA, cxD, cxC, cxE] = [cxD, cxE] ∧
    (∀ f ∈ [cxA, cxC], f ∉ removeOverlappingFindings [cxA, cxD, cxC, cxE]) := by
  decide

/-- Claim C2 amended: when the whole input is a single mutually-overlapping
cluster (every pair of findings overlaps), exactly one finding survives: the
fold winner of the start-sorted list, which is an input finding that no input
finding strictly outranks, and which is the earliest-sorted finding of its
rank because only a strictly higher likelihood replaces the running
representative. -/
theorem removeOverlappingFindings_single_cluster (findings : List Finding)
    (hne : findings ≠ []) (hov : findings.Pairwise overlaps) :
    ∃ f rest, sortByStart findings = f :: rest ∧
      removeOverlappingFindings findings = [clusterWinner f rest] ∧
      clusterWinner f rest ∈ findings ∧
      ∀ g ∈ findings,
        likGT g.likelihood (clusterWinner f rest).likelihood = false := by
  have hperm : List.Perm (sortByStart findings) findings :=
    List.perm_insertionSort startLE findings
  have hovs : (sortByStart findings).Pairwise overlaps :=
    (List.Perm.pairwise_iff (fun h => overlaps_symm h) hperm).mpr hov
  by_cases hlen : findings.length ≤ 1
  · match findings, hne, hlen with
    | [], hne, _ => exact absurd rfl hne
    | [x], _, _ =>
      refine ⟨x, [], rfl, rfl, ?_, ?_⟩
      · exact List.mem_singleton_self x
      · intro g hg
        rw [List.mem_singleton] at hg
        subst hg
        exact likGT_irrefl _
    | x :: y :: t, _, hlen => simp at hlen
  · match heq : sortByStart findings with
    | [] =>
      exfalso
      rw [heq] at hperm
      exact hne (hperm.symm.eq_nil)
    | f :: rest =>
      rw [heq] at hovs hperm
      refine ⟨f, rest, rfl, ?_, ?_, ?_⟩
      · rw [removeOverlappingFindings, if_neg hlen, heq]
        show sweepFindings f [] rest = [clusterWinner f rest]
        rw [sweepFindings_cluster rest f [] hovs]
        simp
      · exact (hperm.mem_iff).mp (clusterWinner_mem rest f)
      · intro g hg
        exact clusterWinner_not_beaten rest f g ((hperm.mem_iff).mpr hg)

/-- Witness findings for the amended claim C2: the PERSON_NAME/FIRST_NAME
example of the source's doc comment, both starting at offset 11. -/
def cwA : Finding :=
  { likelihood := "LIKELY", quote := [], infoTypeName := "PERSON_NAME",
    byteStart := 11, byteEnd := 17 }

def cwB : Finding :=
  { likelihood := "VERY_LIKELY", quote := [], infoTypeName := "FIRST_NAME",
    byteStart := 11, byteEnd := 15 }

theorem removeOverlappingFindings_single_cluster_witness :
    ([cwA, cwB] : List Finding) ≠ [] ∧
    List.Pairwise overlaps [cwA, cwB] ∧
    (∃ f rest, sortByStart [cwA, cwB] = f :: rest ∧
      removeOverlappingFindings [cwA, cwB] = [clusterWinner f rest] ∧
      clusterWinner f rest ∈ [cwA, cwB] ∧
      ∀ g ∈ [cwA, cwB],
        likGT g.likelihood (clusterWinner f rest).likelihood = false) :=
  ⟨by decide, by decide,
    removeOverlappingFindings_single_cluster [cwA, cwB] (by decide) (by decide)⟩

/-! ### The filter policy predicate (claim C3) -/

/-- JavaScript `x <= y` on two lookups that may be `undefined`: any comparison
involving `undefined` coerces to `NaN` and evaluates to `false`. -/
def jsLe (a b : Option Int) : Bool :=
  match a, b with
  | some x, some y => decide (x ≤ y)
  | _, _ => false

/-- JavaScript `!x` for a lookup that is `undefined` or a number: `!undefined`
is `true`, `!0` is `true`, any other number is truthy. -/
def jsFalsy (a : Option Int) : Bool :=
  match a with
  | none => true
  | some v => decide (v = 0)

/-- The filter predicate of `doRedactAsync` / `doInspectStructured`:
`filter[a.infoType.name] <= LIKELIHOOD_PRIORITY[a.likelihood] || !filter[a.infoType.name]`.
The policy is a JavaScript object, so a missing category yields `undefined`. -/
def keepFinding (pol : String → Option Int) (f : Finding) : Bool :=
  jsLe (pol f.infoTypeName) (likelihoodPriority f.likelihood) ||
    jsFalsy (pol f.infoTypeName)

/-- A policy with a single entry of rank 0 for category CATX. -/
def polZero : String → Option Int :=
  fun c => if c = "CATX" then some 0 else none

/-- A CATX finding whose likelihood ranks strictly below the policy entry. -/
def findingExclude : Finding :=
  { likelihood := "EXCLUDE", quote := [], infoTypeName := "CATX",
    byteStart := 0, byteEnd := 0 }

/-- Claim C3 is false: the policy has the entry 0 for the finding's category
and the finding's rank −1 is strictly below it, so the claim says the finding
is dropped; but `0` is falsy in JavaScript, so `!filter[...]` is `true` and
the code keeps the finding. -/
theorem keepFinding_iff_counterexample :
    keepFinding polZero findingExclude = true ∧
    polZero findingExclude.infoTypeName = some 0 ∧
    likelihoodPriority findingExclude.likelihood = some (-1) ∧
    ¬ ((0 : Int) ≤ -1) := by
  decide

/-- Claim C3 amended: the filter keeps a finding iff the policy has no entry
for its category, or the entry is the falsy number 0, or both the entry and
the finding's likelihood rank are defined and the rank is at least the
entry. -/
theorem keepFinding_iff (pol : String → Option Int) (f : Finding) :
    keepFinding pol f = true ↔
      pol f.infoTypeName = none ∨ pol f.infoTypeName = some 0 ∨
        ∃ v r, pol f.infoTypeName = some v ∧
          likelihoodPriority f.likelihood = some r ∧ v ≤ r := by
  cases hp : pol f.infoTypeName with
  | none =>
    simp [keepFinding, jsLe, jsFalsy, hp]
  | some v =>
    cases hr : likelihoodPriority f.likelihood with
    | none =>
      simp [keepFinding, jsLe, jsFalsy, hp, hr]
    | some r =>
      simp [keepFinding, jsLe, jsFalsy, hp, hr]
      exact or_comm

/-! ### Content batching (claims C4, C7, C8, C10) -/

/-- The batching while-loop of `redactAsync` (and the row loop of
`inspectStructured`): cut the list into consecutive slices of `n` elements,
last slice possibly shorter.  The source loop advances `batchStartIndex` by
the batch size each iteration; a size of 0 would never advance (the
JavaScript would loop forever), which cannot arise because the resolved batch
size is positive — the embedding returns `[]` for size 0. -/
def chunkBy {α : Type} (n : Nat) : List α → List (List α)
  | [] => []
  | a :: t =>
    if h : n = 0 then []
    else List.take n (a :: t) :: chunkBy n (List.drop n (a :: t))
  termination_by l => l.length
  decreasing_by
    simp only [List.length_drop, List.length_cons]
    omega

theorem chunkBy_flatten {α : Type} (n : Nat) (hn : 0 < n) :
    ∀ l : List α, (chunkBy n l).flatten = l
  | [] => by rw [chunkBy]; rfl
  | a :: t => by
    rw [chunkBy, dif_neg (by omega)]
    rw [List.flatten_cons]
    rw [chunkBy_flatten n hn (List.drop n (a :: t))]
    exact List.take_append_drop n (a :: t)
  termination_by l => l.length
  decreasing_by
    simp only [List.length_drop, List.length_cons]
    omega

theorem chunkBy_length {α : Type} (n : Nat) (hn : 0 < n) :
    ∀ l : List α, l ≠ [] → (chunkBy n l).length = (l.length + n - 1) / n
  | [], hl => absurd rfl hl
  | a :: t, _ => by
    rw [chunkBy, dif_neg (by omega)]
    by_cases hd : List.drop n (a :: t) = []
    · rw [hd]
      have hnil : chunkBy n ([] : List α) = [] := by rw [chunkBy]
      rw [hnil]
      have hle : (a :: t).length ≤ n := List.drop_eq_nil_iff.mp hd
      simp only [List.length_cons, List.length_nil] at hle ⊢
      have : (t.length + 1 + n - 1) / n = 1 := by
        apply Nat.div_eq_of_lt_le
        · omega
        · omega
      omega
    · have hlt : n < (a :: t).length := by
        by_contra hc
        push_neg at hc
        exact hd (List.drop_eq_nil_iff.mpr hc)
      rw [List.length_cons]
      rw [chunkBy_length n hn (List.drop n (a :: t)) hd]
      simp only [List.length_drop, List.length_cons] at hlt ⊢
      have e1 : t.length + 1 - n + n - 1 = t.length := by omega
      have e2 : t.length + 1 + n - 1 = t.length + n := by omega
      rw [e1, e2, Nat.add_div_right _ hn]
  termination_by l => l.length
  decreasing_by
    simp only [List.length_drop, List.length_cons]
    omega

theorem chunkBy_mem_length_le {α : Type} (n : Nat) :
    ∀ (l : List α), ∀ s ∈ chunkBy n l, s.length ≤ n
  | [], s, hs => by
    rw [chunkBy] at hs
    exact absurd hs (List.not_mem_nil s)
  | a :: t, s, hs => by
    rw [chunkBy] at hs
    by_cases h : n = 0
    · rw [dif_pos h] at hs
      exact absurd hs (List.not_mem_nil s)
    · rw [dif_neg h] at hs
      rcases List.mem_cons.mp hs with rfl | hs'
      · rw [List.length_take]
        omega
      · exact chunkBy_mem_length_le n (List.drop n (a :: t)) s hs'
  termination_by l => l.length
  decreasing_by
    simp only [List.length_drop, List.length_cons]
    omega

theorem chunkBy_ne_nil {α : Type} (n : Nat) (l : List α) (hn : 0 < n)
    (hl : l ≠ []) : chunkBy n l ≠ [] := by
  cases l with
  | nil => exact absurd rfl hl
  | cons a t =>
    rw [chunkBy, dif_neg (by omega)]
    exact List.cons_ne_nil _ _

theorem chunkBy_dropLast_length {α : Type} (n : Nat) (hn : 0 < n) :
    ∀ (l : List α), ∀ s ∈ (chunkBy n l).dropLast, s.length = n
  | [], s, hs => by
    rw [chunkBy] at hs
    exact absurd hs (List.not_mem_nil s)
  | a :: t, s, hs => by
    rw [chunkBy, dif_neg (by omega)] at hs
    by_cases hd : List.drop n (a :: t) = []
    · rw [hd] at hs
      have hnil : chunkBy n ([] : List α) = [] := by rw [chunkBy]
      rw [hnil] at hs
      simp at hs
    · have hne : chunkBy n (List.drop n (a :: t)) ≠ [] :=
        chunkBy_ne_nil n _ hn hd
      rw [List.dropLast_cons_of_ne_nil hne] at hs
      rcases List.mem_cons.mp hs with rfl | hs'
      · have hlt : n < (a :: t).length := by
          by_contra hc
          push_neg at hc
          exact hd (List.drop_eq_nil_iff.mpr hc)
        rw [List.length_take]
        omega
      · exact chunkBy_dropLast_length n hn (List.drop n (a :: t)) s hs'
  termination_by l => l.length
  decreasing_by
    simp only [List.length_drop, List.length_cons]
    omega

/-! ### The redaction pipeline (claims C4, C5, C6, C10) -/

/-- `MIN_FINDING_QUOTE_LENGTH` from the source. -/
def MIN_FINDING_QUOTE_LENGTH : Nat := 2

/-- JavaScript `text.indexOf(needle) >= 0`: the needle occurs in the text
(an empty needle is found at index 0). -/
def hasSub (needle : List Char) : List Char → Bool
  | [] => needle.isEmpty
  | c :: t => needle.isPrefixOf (c :: t) || hasSub needle t

/-- JavaScript `text.replace(needle, repl)`: replace the first (leftmost)
occurrence of the literal `needle`, if any. -/
def replaceFirst (needle repl : List Char) : List Char → List Char
  | [] => if needle.isEmpty then repl else []
  | c :: t =>
    if needle.isPrefixOf (c :: t) then repl ++ List.drop needle.length (c :: t)
    else c :: replaceFirst needle repl t

/-- The bounded replacement loop of `doRedactAsync`:
`while (numSearches++ < 1000 && textToRedact.indexOf(find) >= 0)`. -/
def replaceLoop (fuel : Nat) (needle repl : List Char) (text : List Char) :
    List Char :=
  match fuel with
  | 0 => text
  | f + 1 =>
    if hasSub needle text then
      replaceLoop f needle repl (replaceFirst needle repl text)
    else text

/-- Rank used by the descending likelihood sort of the substitution loop.
For a likelihood missing from the table the JavaScript comparator computes
`undefined - undefined = NaN` and the sort order is unspecified; the
embedding uses 0 for such values.  No theorem below depends on this case. -/
def likRankD (s : String) : Int := (likelihoodPriority s).getD 0

/-- Descending-likelihood order of the substitution loop:
`(a, b) => likelihoodPriority[b.likelihood] - likelihoodPriority[a.likelihood]`. -/
def descLik (a b : Finding) : Prop := likRankD b.likelihood ≤ likRankD a.likelihood

instance : DecidableRel descLik := fun a b => Int.decLe _ _

/-- The in-place `findingsWithoutOverlaps.sort(...)` (stable, descending by
likelihood). -/
def sortByLikDesc (l : List Finding) : List Finding :=
  List.insertionSort descLik l

/-- The `forEach` substitution loop: skip when the quote already equals the
info type name or is shorter than `MIN_FINDING_QUOTE_LENGTH`, otherwise
replace up to 1000 occurrences of the quote with the info type name. -/
def substituteFindings (findings : List Finding) (text : List Char) :
    List Char :=
  findings.foldl
    (fun txt f =>
      if f.quote ≠ f.infoTypeName.data ∧
          MIN_FINDING_QUOTE_LENGTH ≤ f.quote.length then
        replaceLoop 1000 f.quote f.infoTypeName.data txt
      else txt)
    text

/-- The `RedactorOutput` shape returned by the redactor
(`config.infoTypes`, `metrics`, `text`, `findings`). -/
structure RedactorOutput where
  infoTypes : List String
  findingsCap : Nat
  maxFindings : Nat
  text : List Char
  findings : List Finding
deriving DecidableEq

/-- The options recognized by `HDXGoogleDLPRedactor` that the embedded logic
reads. -/
structure HDXOptions where
  includeInfoTypes : List String
  customInfoTypes : List String
  maxContentSizeForBatch : Option Nat
  disableAutoBatchWhenContentSizeExceedsLimit : Bool

/-- The info type names reported in `config.infoTypes`:
`inspectConfig.infoTypes.map(i => i.name).concat(inspectConfig.customInfoTypes.map(i => i.infoType.name))`,
both lists coming from the options in `getInspectConfig`. -/
def configInfoTypes (o : HDXOptions) : List String :=
  o.includeInfoTypes ++ o.customInfoTypes

/-- The `TypeError` JavaScript throws for `filter[name]` when `filter` is
`undefined`. -/
def undefinedFilterError : String :=
  "TypeError: Cannot read properties of undefined"

/-- `doRedactAsync` of the source, with the engine response findings passed
in as data.  When at least one finding is present the filter callback runs,
and dereferencing an absent (`undefined`) filter throws.  Note that the
returned `findings` are the filtered findings, not the overlap-resolved
list; when `replaceText` is set, `removeOverlappingFindings` has sorted the
`filteredFindings` array in place before the return, which the embedding
reproduces (the early return for 0 or 1 findings skips the sort, but
sorting a list of at most one element is the identity, so `sortByStart` is
used unconditionally). -/
def doRedactAsync (o : HDXOptions) (textToRedact : List Char)
    (filter : Option (String → Option Int)) (replaceText : Bool)
    (findings : List Finding) : Except String RedactorOutput :=
  if 0 < findings.length then
    match filter with
    | none => Except.error undefinedFilterError
    | some pol =>
      let filteredFindings := findings.filter (keepFinding pol)
      if replaceText then
        let findingsWithoutOverlaps := removeOverlappingFindings filteredFindings
        let ordered := sortByLikDesc findingsWithoutOverlaps
        let newText := substituteFindings ordered textToRedact
        Except.ok
          { infoTypes := configInfoTypes o
            findingsCap := if 2000 ≤ findings.length then 1 else 0
            maxFindings := findings.length
            text := newText
            findings := sortByStart filteredFindings }
      else
        Except.ok
          { infoTypes := configInfoTypes o
            findingsCap := if 2000 ≤ findings.length then 1 else 0
            maxFindings := findings.length
            text := textToRedact
            findings := filteredFindings }
  else
    Except.ok
      { infoTypes := configInfoTypes o
        findingsCap := if 2000 ≤ findings.length then 1 else 0
        maxFindings := findings.length
        text := textToRedact
        findings := findings }

/-- Sequential composition of the per-slice `doRedactAsync` calls of the
batching loop (`replaceText` is left at its default `false`; a rejected
promise rejects the whole batch). -/
def runBatches (o : HDXOptions) (filter : Option (String → Option Int))
    (engine : List Char → List Finding) :
    List (List Char) → Except String (List RedactorOutput)
  | [] => Except.ok []
  | s :: rest =>
    match doRedactAsync o s filter false (engine s) with
    | Except.error e => Except.error e
    | Except.ok r =>
      match runBatches o filter engine rest with
      | Except.error e => Except.error e
      | Except.ok rs => Except.ok (r :: rs)

/-- The `TypeError` JavaScript throws for `[].reduce(f)` with no initial
value. -/
def emptyReduceError : String :=
  "TypeError: Reduce of empty array with no initial value"

/-- The merge step of the batching branch: each field is combined with
`Array.prototype.reduce` with no initial value — texts and finding lists are
concatenated in slice order, `config.infoTypes` keeps the last slice's
value, `maxFindings` takes the maximum, `findingsCap` the sum. -/
def mergeBatchResults : List RedactorOutput → Except String RedactorOutput
  | [] => Except.error emptyReduceError
  | r :: rs =>
    Except.ok
      { infoTypes := rs.foldl (fun _ b => b.infoTypes) r.infoTypes
        findingsCap := rs.foldl (fun a b => a + b.findingsCap) r.findingsCap
        maxFindings := rs.foldl (fun a b => max a b.maxFindings) r.maxFindings
        text := rs.foldl (fun a b => a ++ b.text) r.text
        findings := rs.foldl (fun a b => a ++ b.findings) r.findings }

/-- Resolution of `this.opts.maxContentSizeForBatch || MAX_CONTENT_LENGTH / 2`:
an absent or falsy (0) option falls back to half the engine content-size
limit.  The limit constant itself lives in `GoogleDLPRedactor.ts` and is
taken as a parameter here. -/
def resolveBatchSize (maxContentLength : Nat) (o : HDXOptions) : Nat :=
  match o.maxContentSizeForBatch with
  | none => maxContentLength / 2
  | some 0 => maxContentLength / 2
  | some s => s

/-- `redactAsync` of the source: content longer than the resolved batch size
is cut into consecutive slices, each slice is redacted independently with
`doRedactAsync(batchText, filter)` (so `replaceText` stays `false`), and the
slice outputs are merged with `reduce`; otherwise a single call is made. -/
def redactAsync (maxContentLength : Nat) (o : HDXOptions)
    (textToRedact : List Char) (filter : Option (String → Option Int))
    (engine : List Char → List Finding) : Except String RedactorOutput :=
  if resolveBatchSize maxContentLength o < textToRedact.length ∧
      o.disableAutoBatchWhenContentSizeExceedsLimit = false then
    match runBatches o filter engine
        (chunkBy (resolveBatchSize maxContentLength o) textToRedact) with
    | Except.error e => Except.error e
    | Except.ok batchResults => mergeBatchResults batchResults
  else
    doRedactAsync o textToRedact filter false (engine textToRedact)

/-- With a present filter policy and `replaceText = false`, `doRedactAsync`
always succeeds and returns the input text and the filtered findings. -/
theorem doRedactAsync_false_eq (o : HDXOptions) (text : List Char)
    (pol : String → Option Int) (fs : List Finding) :
    doRedactAsync o text (some pol) false fs = Except.ok
      { infoTypes := configInfoTypes o
        findingsCap := if 2000 ≤ fs.length then 1 else 0
        maxFindings := fs.length
        text := text
        findings := fs.filter (keepFinding pol) } := by
  cases fs with
  | nil => simp [doRedactAsync]
  | cons a t => simp [doRedactAsync]

/-- With a present filter policy, the whole batch run succeeds and produces
one output per slice, each carrying its slice text and filtered findings. -/
theorem runBatches_ok (o : HDXOptions) (pol : String → Option Int)
    (engine : List Char → List Finding) :
    ∀ slices : List (List Char),
      runBatches o (some pol) engine slices =
        Except.ok (slices.map (fun s =>
          { infoTypes := configInfoTypes o
            findingsCap := if 2000 ≤ (engine s).length then 1 else 0
            maxFindings := (engine s).length
            text := s
            findings := (engine s).filter (keepFinding pol) }))
  | [] => rfl
  | s :: rest => by
    rw [runBatches, doRedactAsync_false_eq, runBatches_ok o pol engine rest]
    rfl

theorem foldl_append_texts (rs : List RedactorOutput) :
    ∀ init : List Char,
      rs.foldl (fun a b => a ++ b.text) init =
        init ++ (rs.map (fun b => b.text)).flatten := by
  induction rs with
  | nil => intro init; simp
  | cons r t ih =>
    intro init
    rw [List.foldl_cons, ih, List.map_cons, List.flatten_cons]
    rw [List.append_assoc]

/-- Whatever the filter and engine findings, a successful `doRedactAsync`
with `replaceText = false` returns the input text unchanged. -/
theorem doRedactAsync_false_text (o : HDXOptions) (text : List Char)
    (filter : Option (String → Option Int)) (fs : List Finding)
    (out : RedactorOutput)
    (h : doRedactAsync o text filter false fs = Except.ok out) :
    out.text = text := by
  cases filter with
  | none =>
    cases fs with
    | nil =>
      simp [doRedactAsync] at h
      rw [← h]
    | cons a t => simp [doRedactAsync] at h
  | some pol =>
    rw [doRedactAsync_false_eq] at h
    have := Except.ok.inj h
    rw [← this]

/-- A successful batch run produces exactly the slice texts, in order. -/
theorem runBatches_texts (o : HDXOptions)
    (filter : Option (String → Option Int))
    (engine : List Char → List Finding) :
    ∀ (slices : List (List Char)) (results : List RedactorOutput),
      runBatches o filter engine slices = Except.ok results →
      results.map (fun b => b.text) = slices
  | [], results, h => by
    rw [runBatches] at h
    rw [← Except.ok.inj h]
    rfl
  | s :: rest, results, h => by
    rw [runBatches] at h
    cases hdo : doRedactAsync o s filter false (engine s) with
    | error e => rw [hdo] at h; exact absurd h (by simp)
    | ok r =>
      rw [hdo] at h
      cases hrb : runBatches o filter engine rest with
      | error e => rw [hrb] at h; exact absurd h (by simp)
      | ok rs =>
        rw [hrb] at h
        rw [← Except.ok.inj h]
        rw [List.map_cons]
        rw [runBatches_texts o filter engine rest rs hrb]
        rw [doRedactAsync_false_text o s filter (engine s) r hdo]

theorem chunkBy_zero {α : Type} (l : List α) : chunkBy 0 l = [] := by
  cases l with
  | nil => rw [chunkBy]
  | cons a t => rw [chunkBy]; exact dif_pos rfl

/-- Claim C4: with auto-batching enabled, a configured batch size
`0 < S < L`, a present filter policy and no substitution, `redactAsync` cuts
the content into `ceil(L / S)` consecutive slices of exactly `S` characters
(last slice possibly shorter), and the returned text — the concatenation of
the per-slice output texts in slice order — equals the original content. -/
theorem redactAsync_batch_reconstruction (ML : Nat) (o : HDXOptions)
    (text : List Char) (pol : String → Option Int)
    (engine : List Char → List Finding) (S : Nat)
    (hS : 0 < S) (hopt : o.maxContentSizeForBatch = some S)
    (hdis : o.disableAutoBatchWhenContentSizeExceedsLimit = false)
    (hL : S < text.length) :
    (chunkBy S text).length = (text.length + S - 1) / S ∧
    (chunkBy S text).flatten = text ∧
    (∀ s ∈ chunkBy S text, s.length ≤ S) ∧
    (∀ s ∈ (chunkBy S text).dropLast, s.length = S) ∧
    ∃ out, redactAsync ML o text (some pol) engine = Except.ok out ∧
      out.text = text := by
  have htne : text ≠ [] := by
    intro h
    rw [h] at hL
    simp at hL
  refine ⟨chunkBy_length S hS text htne, chunkBy_flatten S hS text,
    chunkBy_mem_length_le S text, chunkBy_dropLast_length S hS text, ?_⟩
  have hres : resolveBatchSize ML o = S := by
    rw [resolveBatchSize, hopt]
    cases S with
    | zero => omega
    | succ k => rfl
  rw [redactAsync, hres, if_pos ⟨hL, hdis⟩, runBatches_ok]
  have hflat := chunkBy_flatten S hS text
  cases hc : chunkBy S text with
  | nil => exact absurd hc (chunkBy_ne_nil S text hS htne)
  | cons c cs =>
    rw [hc] at hflat
    refine ⟨_, rfl, ?_⟩
    show (cs.map (fun s =>
        ({ infoTypes := configInfoTypes o
           findingsCap := if 2000 ≤ (engine s).length then 1 else 0
           maxFindings := (engine s).length
           text := s
           findings := (engine s).filter (keepFinding pol) }
          : RedactorOutput))).foldl (fun a b => a ++ b.text) c = text
    rw [foldl_append_texts, List.map_map]
    have hid : cs.map
        ((fun b : RedactorOutput => b.text) ∘ (fun s =>
          ({ infoTypes := configInfoTypes o
             findingsCap := if 2000 ≤ (engine s).length then 1 else 0
             maxFindings := (engine s).length
             text := s
             findings := (engine s).filter (keepFinding pol) }
            : RedactorOutput))) = cs.map id := by
      apply List.map_congr_left
      intro s _
      rfl
    rw [hid, List.map_id, ← List.flatten_cons]
    exact hflat

/-- A concrete options record for the claim C4 witness. -/
def optsBatch : HDXOptions :=
  { includeInfoTypes := []
    customInfoTypes := []
    maxContentSizeForBatch := some 2
    disableAutoBatchWhenContentSizeExceedsLimit := false }

theorem redactAsync_batch_reconstruction_witness :
    0 < 2 ∧ optsBatch.maxContentSizeForBatch = some 2 ∧
    optsBatch.disableAutoBatchWhenContentSizeExceedsLimit = false ∧
    2 < (['a', 'b', 'c', 'd', 'e'] : List Char).length ∧
    ((chunkBy 2 ['a', 'b', 'c', 'd', 'e']).length =
        ((['a', 'b', 'c', 'd', 'e'] : List Char).length + 2 - 1) / 2 ∧
      (chunkBy 2 ['a', 'b', 'c', 'd', 'e']).flatten = ['a', 'b', 'c', 'd', 'e'] ∧
      (∀ s ∈ chunkBy 2 ['a', 'b', 'c', 'd', 'e'], s.length ≤ 2) ∧
      (∀ s ∈ (chunkBy 2 ['a', 'b', 'c', 'd', 'e']).dropLast, s.length = 2) ∧
      ∃ out, redactAsync 0 optsBatch ['a', 'b', 'c', 'd', 'e']
          (some (fun _ => none)) (fun _ => []) = Except.ok out ∧
        out.text = ['a', 'b', 'c', 'd', 'e']) :=
  ⟨by decide, by decide, by decide, by decide,
    redactAsync_batch_reconstruction 0 optsBatch ['a', 'b', 'c', 'd', 'e']
      (fun _ => none) (fun _ => []) 2 (by decide) (by decide) (by decide)
      (by decide)⟩

/-- Claim C10: whenever the public `redactAsync` succeeds, the returned text
equals the input text — `redactAsync` always calls `doRedactAsync` with
`replaceText` at its default `false`, so the substitution loop never runs,
in both the single-call and the batched path. -/
theorem redactAsync_text_unchanged (ML : Nat) (o : HDXOptions)
    (text : List Char) (filter : Option (String → Option Int))
    (engine : List Char → List Finding) (out : RedactorOutput)
    (h : redactAsync ML o text filter engine = Except.ok out) :
    out.text = text := by
  rw [redactAsync] at h
  by_cases hc : resolveBatchSize ML o < text.length ∧
      o.disableAutoBatchWhenContentSizeExceedsLimit = false
  · rw [if_pos hc] at h
    cases hrb : runBatches o filter engine
        (chunkBy (resolveBatchSize ML o) text) with
    | error e =>
      rw [hrb] at h
      exact absurd h (by simp)
    | ok results =>
      rw [hrb] at h
      have htexts := runBatches_texts o filter engine _ results hrb
      cases results with
      | nil =>
        simp [mergeBatchResults] at h
      | cons r rs =>
        simp only [mergeBatchResults] at h
        rw [← Except.ok.inj h]
        show rs.foldl (fun a b => a ++ b.text) r.text = text
        rw [foldl_append_texts]
        cases hS : resolveBatchSize ML o with
        | zero =>
          exfalso
          rw [hS, chunkBy_zero] at htexts
          exact absurd htexts (by simp)
        | succ k =>
          have hflat := chunkBy_flatten (k + 1) (Nat.succ_pos k) text
          rw [hS] at htexts
          rw [← htexts, List.map_cons, List.flatten_cons] at hflat
          exact hflat
  · rw [if_neg hc] at h
    exact doRedactAsync_false_text o text filter (engine text) out h

/-- A concrete options record leaving every option at its default. -/
def optsPlain : HDXOptions :=
  { includeInfoTypes := []
    customInfoTypes := []
    maxContentSizeForBatch := none
    disableAutoBatchWhenContentSizeExceedsLimit := false }

/-- The single-call output on `['a','b','c']` with no findings. -/
def outPlain : RedactorOutput :=
  { infoTypes := []
    findingsCap := 0
    maxFindings := 0
    text := ['a', 'b', 'c']
    findings := [] }

theorem redactAsync_text_unchanged_witness :
    redactAsync 100 optsPlain ['a', 'b', 'c'] (some (fun _ => none))
        (fun _ => []) = Except.ok outPlain ∧
    outPlain.text = ['a', 'b', 'c'] :=
  ⟨rfl,
    redactAsync_text_unchanged 100 optsPlain ['a', 'b', 'c']
      (some (fun _ => none)) (fun _ => []) outPlain rfl⟩

/-- A finding used to exercise the missing-filter failure. -/
def findingPerson : Finding :=
  { likelihood := "VERY_LIKELY", quote := ['h', 'i'], infoTypeName := "PERSON",
    byteStart := 0, byteEnd := 2 }

/-- Claim C5 evaluated on the code: with the filter argument omitted
(`undefined`) the redactor does not treat the policy as "no restriction" —
as soon as the engine returns at least one finding, the filter callback
dereferences `filter[a.infoType.name]` on `undefined` and throws a
`TypeError`; only the zero-findings path survives. -/
theorem missing_filter_throws :
    doRedactAsync optsPlain ['h', 'i'] none false [findingPerson] =
      Except.error undefinedFilterError ∧
    redactAsync 100 optsPlain ['h', 'i'] none (fun _ => [findingPerson]) =
      Except.error undefinedFilterError ∧
    doRedactAsync optsPlain ['h', 'i'] none false [] =
      Except.ok
        { infoTypes := []
          findingsCap := 0
          maxFindings := 0
          text := ['h', 'i']
          findings := [] } :=
  ⟨rfl, rfl, rfl⟩

/-- Overlapping findings that both pass an unrestricted filter policy. -/
def findingWide : Finding :=
  { likelihood := "LIKELY", quote := [], infoTypeName := "X",
    byteStart := 0, byteEnd := 5 }

def findingLate : Finding :=
  { likelihood := "LIKELY", quote := [], infoTypeName := "Y",
    byteStart := 3, byteEnd := 8 }

/-- Claim C6 is false: `doRedactAsync` returns `filteredFindings`, not the
output of `removeOverlappingFindings`, so a redaction call can return two
overlapping findings. -/
theorem redactAsync_findings_overlap_counterexample :
    redactAsync 100 optsPlain ['a', 'b'] (some (fun _ => none))
        (fun _ => [findingWide, findingLate]) =
      Except.ok
        { infoTypes := []
          findingsCap := 0
          maxFindings := 2
          text := ['a', 'b']
          findings := [findingWide, findingLate] } ∧
    overlaps findingWide findingLate := by
  exact ⟨rfl, by decide⟩

/-- Claim C6 amended: the finding set returned by a (non-substituting)
redaction call is post-filter only — exactly the engine findings that pass
the filter policy, in engine order; overlap resolution is applied only to
the temporary list driving text substitution and never to the returned
findings, which may therefore overlap. -/
theorem doRedactAsync_findings_post_filter (o : HDXOptions)
    (text : List Char) (pol : String → Option Int) (fs : List Finding) :
    ∃ out, doRedactAsync o text (some pol) false fs = Except.ok out ∧
      out.findings = fs.filter (keepFinding pol) :=
  ⟨_, doRedactAsync_false_eq o text pol fs, rfl⟩

/-! ### Wave-based dispatch (claim C7) and structured batching (claim C8) -/

/-- `MAX_PROMISES` from the source: the loop flushes (awaits) the pending
promise array whenever it reaches this size, so calls are issued in waves of
at most this many in-flight requests, and the next wave starts only after
`Promise.all` of the previous wave resolves.  The `MAX_PROMISES` environment
override is not modelled (unset, the constant is the number 5). -/
def MAX_PROMISES : Nat := 5

/-- The partition of the dispatched jobs into the waves awaited by the
batching loops of `redactAsync` and `inspectStructured`: consecutive groups
of `MAX_PROMISES` jobs, last group possibly smaller, flushed after the
loop. -/
def dispatchWaves {α : Type} (jobs : List α) : List (List α) :=
  chunkBy MAX_PROMISES jobs

/-- The row budget of `inspectStructured`:
`Math.trunc(50000 / headers.length / 2) - 1`.  For the header counts on
which the loop terminates, the double-precision quotient truncates to the
same value as the nested natural division used here (dividing by 2 is exact
in binary floating point, and `50000 / h` is never close enough to an
integer boundary for rounding to cross it); `Nat` subtraction clamps at 0
where JavaScript would produce −1, which the positivity hypothesis of the
theorems below excludes. -/
def maxRowsPerBatch (headerCount : Nat) : Nat :=
  50000 / headerCount / 2 - 1

/-- The engine calls dispatched by `inspectStructured`: each batch of rows is
sent to `doInspectStructured(headers, rowsBatch, filter)` with the same,
unsplit header list; short inputs are sent as a single call. -/
def inspectStructuredCalls (headers : List String)
    (rows : List (List String)) :
    List (List String × List (List String)) :=
  if maxRowsPerBatch headers.length < rows.length then
    (chunkBy (maxRowsPerBatch headers.length) rows).map (fun b => (headers, b))
  else [(headers, rows)]

/-- Claim C7: both batching loops dispatch their jobs in waves of at most
`MAX_PROMISES` (5) calls, and concatenating the waves in dispatch order
gives back the slice sequence — wave N + 1 exists strictly after wave N in
the model, which executes `Promise.all` on each wave before assembling the
next, so no call of a later wave is issued before every call of the earlier
wave completed. -/
theorem dispatchWaves_bounded (text : List Char) (S : Nat)
    (headers : List String) (rows : List (List String)) :
    (∀ w ∈ dispatchWaves (chunkBy S text), w.length ≤ MAX_PROMISES) ∧
    (dispatchWaves (chunkBy S text)).flatten = chunkBy S text ∧
    (∀ w ∈ dispatchWaves (chunkBy (maxRowsPerBatch headers.length) rows),
      w.length ≤ MAX_PROMISES) ∧
    (dispatchWaves (chunkBy (maxRowsPerBatch headers.length) rows)).flatten =
      chunkBy (maxRowsPerBatch headers.length) rows :=
  ⟨chunkBy_mem_length_le MAX_PROMISES _,
    chunkBy_flatten MAX_PROMISES (by decide) _,
    chunkBy_mem_length_le MAX_PROMISES _,
    chunkBy_flatten MAX_PROMISES (by decide) _⟩

/-- Claim C8: for a positive header count whose computed row budget is
positive (the domain on which the JavaScript loop terminates), the budget
equals `floor(B / H / 2) - 1` with `B = 50000`, no dispatched batch holds
more rows than the budget, and every dispatched call carries the identical
header list. -/
theorem inspectStructured_batching (headers : List String)
    (rows : List (List String)) (hH : 0 < headers.length)
    (hm : 0 < maxRowsPerBatch headers.length) :
    maxRowsPerBatch headers.length = 50000 / headers.length / 2 - 1 ∧
    (∀ call ∈ inspectStructuredCalls headers rows,
      call.2.length ≤ maxRowsPerBatch headers.length) ∧
    (∀ call ∈ inspectStructuredCalls headers rows, call.1 = headers) := by
  refine ⟨rfl, ?_, ?_⟩
  · intro call hcall
    rw [inspectStructuredCalls] at hcall
    by_cases hb : maxRowsPerBatch headers.length < rows.length
    · rw [if_pos hb] at hcall
      rcases List.mem_map.mp hcall with ⟨b, hb1, hb2⟩
      rw [← hb2]
      exact chunkBy_mem_length_le _ rows b hb1
    · rw [if_neg hb] at hcall
      rw [List.mem_singleton] at hcall
      rw [hcall]
      push_neg at hb
      exact hb
  · intro call hcall
    rw [inspectStructuredCalls] at hcall
    by_cases hb : maxRowsPerBatch headers.length < rows.length
    · rw [if_pos hb] at hcall
      rcases List.mem_map.mp hcall with ⟨b, _, hb2⟩
      rw [← hb2]
    · rw [if_neg hb] at hcall
      rw [List.mem_singleton] at hcall
      rw [hcall]

theorem inspectStructured_batching_witness :
    0 < (["colA", "colB"] : List String).length ∧
    0 < maxRowsPerBatch (["colA", "colB"] : List String).length ∧
    (maxRowsPerBatch (["colA", "colB"] : List String).length =
        50000 / (["colA", "colB"] : List String).length / 2 - 1 ∧
      (∀ call ∈ inspectStructuredCalls ["colA", "colB"] [["x"], ["y"], ["z"]],
        call.2.length ≤ maxRowsPerBatch (["colA", "colB"] : List String).length) ∧
      (∀ call ∈ inspectStructuredCalls ["colA", "colB"] [["x"], ["y"], ["z"]],
        call.1 = ["colA", "colB"])) :=
  ⟨by decide, by decide,
    inspectStructured_batching ["colA", "colB"] [["x"], ["y"], ["z"]]
      (by decide) (by decide)⟩

/-! ### The likelihood rank table (claim C9) -/

/-- A finding whose likelihood value is not one of the enumerated names. -/
def findingUnknownLik : Finding :=
  { likelihood := "WAT", quote := [], infoTypeName := "A",
    byteStart := 0, byteEnd := 5 }

/-- A finding with a real (enumerated) likelihood overlapping the unknown
one. -/
def findingKnownLik : Finding :=
  { likelihood := "VERY_UNLIKELY", quote := [], infoTypeName := "B",
    byteStart := 3, byteEnd := 8 }

/-- Claim C9 is false in its failure-mode half: a finding with the
non-enumerated likelihood value WAT does not make processing fail loudly —
the table lookup silently yields `undefined`, every rank comparison against
it evaluates to `false`, and `removeOverlappingFindings` returns normally,
even discarding an overlapping real finding in the unknown one's favor. -/
theorem likelihood_unknown_silent_counterexample :
    likelihoodPriority "WAT" = none ∧
    likGT "WAT" "VERY_UNLIKELY" = false ∧
    likGT "VERY_UNLIKELY" "WAT" = false ∧
    removeOverlappingFindings [findingUnknownLik, findingKnownLik] =
      [findingUnknownLik] := by
  decide

/-- Claim C9 amended: on the seven enumerated names the table is a fixed
injective assignment of distinct integers with EXCLUDE strictly below every
other rank; any other likelihood value maps to `undefined` (`none`), and
every rank comparison involving such a value silently evaluates to `false`
— no error is raised. -/
theorem likelihoodPriority_amended :
    (∀ a ∈ likelihoodNames, ∀ b ∈ likelihoodNames,
      likelihoodPriority a = likelihoodPriority b → a = b) ∧
    (∀ a ∈ likelihoodNames, a ≠ "EXCLUDE" → likGT a "EXCLUDE" = true) ∧
    likelihoodPriority "EXCLUDE" = some (-1) ∧
    (∀ s, s ∉ likelihoodNames → likelihoodPriority s = none) ∧
    (∀ s t, likelihoodPriority s = none →
      likGT s t = false ∧ likGT t s = false) := by
  refine ⟨by decide, by decide, rfl, ?_, ?_⟩
  · intro s hs
    simp only [likelihoodNames, List.mem_cons, List.mem_singleton,
      not_or] at hs
    obtain ⟨h1, h2, h3, h4, h5, h6, h7⟩ := hs
    simp [likelihoodPriority, h1, h2, h3, h4, h5, h6, h7]
  · intro s t hsnone
    constructor
    · cases ht : likelihoodPriority t <;> simp [likGT, hsnone, ht]
    · cases ht : likelihoodPriority t <;> simp [likGT, hsnone, ht]

theorem likelihoodPriority_amended_witness :
    ("WAT" ∉ likelihoodNames) ∧
    ("LIKELY" ∈ likelihoodNames ∧ "LIKELY" ≠ "EXCLUDE") ∧
    likelihoodPriority "WAT" = none ∧
    likGT "LIKELY" "EXCLUDE" = true ∧
    likGT "WAT" "LIKELY" = false ∧ likGT "LIKELY" "WAT" = false :=
  ⟨by decide, ⟨by decide, by decide⟩,
    likelihoodPriority_amended.2.2.2.1 "WAT" (by decide),
    likelihoodPriority_amended.2.1 "LIKELY" (by decide) (by decide),
    (likelihoodPriority_amended.2.2.2.2 "WAT" "LIKELY"
      (likelihoodPriority_amended.2.2.2.1 "WAT" (by decide))).1,
    (likelihoodPriority_amended.2.2.2.2 "WAT" "LIKELY"
      (likelihoodPriority_amended.2.2.2.1 "WAT" (by decide))).2⟩

end HDX
